import Mathlib

/-!
Verification of the skylift conversion pipeline.

The development shallowly embeds the two source files:
  * `extras/wigle_to_skylift.py` — geo distance helpers, the conversion of a
    WiGLE result list, sorting by absolute distance, and the chunked output
    writer;
  * `src/models/network.py` — the pydantic models `Network`, `Meta` and
    `Networks` with their post-init normalisation and the `get_networks`
    filter query.

Floating point coordinates and distances are modelled with `ℚ`; the geodesic
distance computed by the geopy library is treated as an arbitrary function
parameter (the library is external to the repository), so every theorem about
it holds for any distance function, with nonnegativity or vanishing on the
diagonal as explicit hypotheses where needed.
-/

namespace Skylift

/-- A latitude and longitude pair, as the Python tuples `(lat, lon)`. -/
abbrev Point : Type := ℚ × ℚ

/-- The step function applied by `calc_geo_rssi` to the geodesic distance in
meters, transcribed from the if-elif chain of the source. -/
def calcRssiOfDist (m : ℚ) : Int :=
  if m > 1000 then -90
  else if m > 500 then -80
  else if m > 250 then -75
  else if m > 125 then -65
  else if m > 50 then -55
  else -50

/-- Embedding of `calc_geo_rssi(p1, p2)`: the geodesic distance between the two
points mapped through the step function. `geodesic_m` stands for
`geopy.distance.geodesic(p1, p2).m`. -/
def calc_geo_rssi (geodesic_m : Point → Point → ℚ) (p1 p2 : Point) : Int :=
  calcRssiOfDist (geodesic_m p1 p2)

/-- Modelled from the spec: the RSSI bucket table of section 4.1, written with
explicit interval bounds exactly as the table states them. -/
def rssiTableSpec (d : ℚ) : Int :=
  if d > 1000 then -90
  else if 500 < d ∧ d ≤ 1000 then -80
  else if 250 < d ∧ d ≤ 500 then -75
  else if 125 < d ∧ d ≤ 250 then -65
  else if 50 < d ∧ d ≤ 125 then -55
  else -50

/-- Embedding of `get_geo_distance(p1, p2)`: the geodesic distance, negated
when `p2[0] < p1[0] or p2[1] > p1[1]`. -/
def get_geo_distance (geodesic_m : Point → Point → ℚ) (p1 p2 : Point) : ℚ :=
  if p2.1 < p1.1 ∨ p2.2 > p1.2 then -(geodesic_m p1 p2) else geodesic_m p1 p2

/-- The step function agrees with the spec table at every distance. -/
theorem calcRssiOfDist_eq_table (d : ℚ) : calcRssiOfDist d = rssiTableSpec d := by
  unfold calcRssiOfDist rssiTableSpec
  by_cases h1 : d > 1000
  · rw [if_pos h1, if_pos h1]
  · rw [if_neg h1, if_neg h1]
    by_cases h2 : d > 500
    · rw [if_pos h2, if_pos (⟨h2, not_lt.mp h1⟩ : 500 < d ∧ d ≤ 1000)]
    · have h2c : ¬(500 < d ∧ d ≤ 1000) := fun hc => h2 hc.1
      rw [if_neg h2, if_neg h2c]
      by_cases h3 : d > 250
      · rw [if_pos h3, if_pos (⟨h3, not_lt.mp h2⟩ : 250 < d ∧ d ≤ 500)]
      · have h3c : ¬(250 < d ∧ d ≤ 500) := fun hc => h3 hc.1
        rw [if_neg h3, if_neg h3c]
        by_cases h4 : d > 125
        · rw [if_pos h4, if_pos (⟨h4, not_lt.mp h3⟩ : 125 < d ∧ d ≤ 250)]
        · have h4c : ¬(125 < d ∧ d ≤ 250) := fun hc => h4 hc.1
          rw [if_neg h4, if_neg h4c]
          by_cases h5 : d > 50
          · rw [if_pos h5, if_pos (⟨h5, not_lt.mp h4⟩ : 50 < d ∧ d ≤ 125)]
          · have h5c : ¬(50 < d ∧ d ≤ 125) := fun hc => h5 hc.1
            rw [if_neg h5, if_neg h5c]

/-- A concrete distance function (taxicab distance) used only to instantiate
theorems about the distance helpers at concrete inputs. -/
def gdTaxicab (p q : Point) : ℚ := |p.1 - q.1| + |p.2 - q.2|

/-- C1: for every distance function and every pair of points, `calc_geo_rssi`
returns exactly the value of the spec table at the geodesic distance; the
exact boundary distances 1000, 500, 250, 125, 50 fall into the closer bucket
with values -80, -75, -65, -55, -50; and the step function is monotonically
non-increasing in the distance. -/
theorem calc_geo_rssi_matches_table :
    (∀ (gd : Point → Point → ℚ) (p1 p2 : Point),
        calc_geo_rssi gd p1 p2 = rssiTableSpec (gd p1 p2))
    ∧ calcRssiOfDist 1000 = -80 ∧ calcRssiOfDist 500 = -75
    ∧ calcRssiOfDist 250 = -65 ∧ calcRssiOfDist 125 = -55
    ∧ calcRssiOfDist 50 = -50
    ∧ (∀ d1 d2 : ℚ, d1 ≤ d2 → calcRssiOfDist d2 ≤ calcRssiOfDist d1) := by
  refine ⟨?_, by decide, by decide, by decide, by decide, by decide, ?_⟩
  · intro gd p1 p2
    exact calcRssiOfDist_eq_table (gd p1 p2)
  · intro d1 d2 h
    unfold calcRssiOfDist
    split_ifs
    all_goals try norm_num
    all_goals (exfalso; simp only [not_lt] at *; linarith)

/-- Closed instance of `calc_geo_rssi_matches_table`: the table equality at a
concrete distance function and concrete points, and monotonicity at the
concrete pair 3 ≤ 7. -/
theorem calc_geo_rssi_matches_table_witness :
    calc_geo_rssi (fun _ _ => (600 : ℚ)) (0, 0) (1, 1) = rssiTableSpec 600
    ∧ calcRssiOfDist 7 ≤ calcRssiOfDist 3 :=
  ⟨calc_geo_rssi_matches_table.1 (fun _ _ => (600 : ℚ)) (0, 0) (1, 1),
   calc_geo_rssi_matches_table.2.2.2.2.2.2 3 7 (by norm_num)⟩

/-- C8: for every nonnegative distance function vanishing on the diagonal,
the absolute value of `get_geo_distance` is the geodesic distance, the result
is negative exactly when (p2.lat < p1.lat or p2.lon > p1.lon) and the distance
is nonzero, and `get_geo_distance gd p p = 0` for every point. -/
theorem get_geo_distance_signed :
    ∀ gd : Point → Point → ℚ,
      (∀ p q, 0 ≤ gd p q) →
      (∀ p, gd p p = 0) →
      (∀ p1 p2 : Point,
          |get_geo_distance gd p1 p2| = gd p1 p2
          ∧ (get_geo_distance gd p1 p2 < 0 ↔
              ((p2.1 < p1.1 ∨ p2.2 > p1.2) ∧ gd p1 p2 ≠ 0)))
      ∧ (∀ p : Point, get_geo_distance gd p p = 0) := by
  intro gd hnn hdiag
  constructor
  · intro p1 p2
    have hle : 0 ≤ gd p1 p2 := hnn p1 p2
    unfold get_geo_distance
    by_cases h : p2.1 < p1.1 ∨ p2.2 > p1.2
    · rw [if_pos h, abs_neg, abs_of_nonneg hle]
      refine ⟨rfl, ?_⟩
      constructor
      · intro hneg
        exact ⟨h, by intro h0; rw [h0] at hneg; norm_num at hneg⟩
      · rintro ⟨-, hne⟩
        have h0 : 0 < gd p1 p2 := lt_of_le_of_ne hle (Ne.symm hne)
        linarith
    · rw [if_neg h]
      refine ⟨abs_of_nonneg hle, ?_⟩
      constructor
      · intro hneg; linarith
      · rintro ⟨hc, -⟩; exact absurd hc h
  · intro p
    unfold get_geo_distance
    rw [if_neg (by simp : ¬(p.1 < p.1 ∨ p.2 > p.2))]
    exact hdiag p

/-- Closed instance of `get_geo_distance_signed`: the diagonal corollary at
the taxicab distance and the origin. -/
theorem get_geo_distance_signed_witness :
    get_geo_distance gdTaxicab (0, 0) (0, 0) = 0 :=
  (get_geo_distance_signed gdTaxicab
      (fun p q => add_nonneg (abs_nonneg _) (abs_nonneg _))
      (fun p => by simp [gdTaxicab])).2 (0, 0)

/-! ## The pydantic models of `src/models/network.py` -/

/-- Embedding of the pydantic `Network` model. Optional fields carry the
defaults of the source; the two coordinate aliases only affect input parsing
and are not part of the stored state. -/
structure Network where
  bssid : String
  channel : Int
  rssi : Int
  lat : ℚ := 0
  lon : ℚ := 0
  ssid : String := ""
  distance_x : Option ℚ := none
  distance_xy : Option ℚ := none
  distance_y : Option ℚ := none
  qos : Option Int := none
  deriving Repr, DecidableEq

/-- Embedding of `Network.channel_as_2pt4`: `max(0, min(self.channel, 11))`. -/
def Network.channel_as_2pt4 (self : Network) : Int :=
  max 0 (min self.channel 11)

/-- A method call on `self` returns the computed value together with the state
of `self` after the call; the body of `channel_as_2pt4` only reads
`self.channel` and assigns nothing. -/
def Network.channel_as_2pt4_call (self : Network) : Int × Network :=
  (max 0 (min self.channel 11), self)

/-- Embedding of the pydantic `Meta` model; every field is optional. -/
structure Meta where
  comment : Option String := none
  filepath : Option String := none
  lat : Option ℚ := none
  lon : Option ℚ := none
  radius : Option ℚ := none
  run : Option Int := none
  since : Option Int := none
  type : Option String := none
  deriving Repr, DecidableEq

/-- The Python `x if x else d` idiom on an optional integer argument: `None`
and `0` are both falsy and select the default. -/
def pyOrInt (a : Option Int) (d : Int) : Int :=
  match a with
  | some v => if v = 0 then d else v
  | none => d

/-- The Python `str.split(sep)` for a one-character separator, on the character
list of the string; the result is always nonempty and splitting the empty
string gives `[[]]`, as in Python. -/
def pySplitChar (sep : Char) : List Char → List (List Char)
  | [] => [[]]
  | c :: rest =>
    match pySplitChar sep rest with
    | [] => [[]]
    | h :: t => if c = sep then [] :: h :: t else (c :: h) :: t

/-- The final segment of `fp.split(sep)`, as taken by `split(...)[-1]`. -/
def pyLastSegment (sep : Char) (fp : String) : String :=
  String.mk ((pySplitChar sep fp.data).getLastD [])

/-- The Python `sorted(nets, key=lambda x: x.rssi, reverse=True)`: a stable
descending sort by `rssi`, modelled with insertion sort, which is stable and
hence agrees with the Python sort on every input. -/
def sortByRssiDesc (l : List Network) : List Network :=
  l.insertionSort (fun a b => b.rssi ≤ a.rssi)

/-- Embedding of the pydantic `Networks` container with the field defaults of
the source. -/
structure Networks where
  meta : Option Meta := none
  networks : List Network
  filename : String := ""
  n_wifi : Nat := 0
  n_bt : Nat := 0
  wifi : List Network := []
  bt : List Network := []
  deriving Repr, DecidableEq

/-- Embedding of `Networks.model_post_init`: derive `filename` from
`meta.filepath` when `filename` is falsy and the filepath is truthy, adopt
`networks` as the wifi list when `networks` is truthy and `wifi` is falsy,
sort both lists descending by rssi, and recompute the counts. -/
def Networks.model_post_init (self : Networks) : Networks :=
  let filename :=
    if self.filename = "" then
      match self.meta with
      | none => self.filename
      | some m =>
        match m.filepath with
        | none => self.filename
        | some fp => if fp = "" then self.filename else pyLastSegment '/' fp
    else self.filename
  let wifi := sortByRssiDesc
    (if self.networks ≠ [] ∧ self.wifi = [] then self.networks else self.wifi)
  let bt := sortByRssiDesc self.bt
  { self with
    filename := filename
    wifi := wifi
    bt := bt
    n_wifi := wifi.length
    n_bt := bt.length }

/-- The Python `min` of a nonempty integer list, head and tail. -/
def pyMin (x : Int) (xs : List Int) : Int := xs.foldl min x

/-- The Python `max` of a nonempty integer list, head and tail. -/
def pyMax (x : Int) (xs : List Int) : Int := xs.foldl max x

/-- The Python slice `l[:n]` for an integer bound: a negative bound drops that
many elements from the end. -/
def pySliceTo {α : Type} (n : Int) (l : List α) : List α :=
  if n < 0 then l.take (l.length - (-n).toNat) else l.take n.toNat

/-- The body of `get_networks` after the device list has been selected:
return `[]` on an empty list, default falsy bounds to the observed minimum and
maximum rssi and a falsy count to the list length, filter by the inclusive
rssi interval, and return the prefix of at most the count. -/
def getNetsFrom (nets : List Network) (min_rssi max_rssi max_networks : Option Int) :
    List Network :=
  match nets with
  | [] => []
  | x :: xs =>
    pySliceTo (pyOrInt max_networks ((x :: xs).length : Int))
      ((x :: xs).filter (fun n =>
        decide (pyOrInt min_rssi (pyMin x.rssi (xs.map (fun n => n.rssi))) ≤ n.rssi
          ∧ n.rssi ≤ pyOrInt max_rssi (pyMax x.rssi (xs.map (fun n => n.rssi))))))

/-- Embedding of `Networks.get_networks`. For `device_type` equal to `wifi`
the selected list is `self.wifi or self.networks`; for `bt` it is `self.bt`;
any other tag leaves the local variable unbound and the function raises. -/
def Networks.get_networks (self : Networks)
    (min_rssi max_rssi max_networks : Option Int) (device_type : String) :
    Except String (List Network) :=
  if device_type = "wifi" then
    Except.ok (getNetsFrom (if self.wifi = [] then self.networks else self.wifi)
      min_rssi max_rssi max_networks)
  else if device_type = "bt" then
    Except.ok (getNetsFrom self.bt min_rssi max_rssi max_networks)
  else
    Except.error "UnboundLocalError"

/-! ### Helper lemmas about the container -/

theorem model_post_init_networks (s : Networks) :
    (s.model_post_init).networks = s.networks := rfl

theorem model_post_init_wifi (s : Networks) :
    (s.model_post_init).wifi
      = sortByRssiDesc (if s.networks ≠ [] ∧ s.wifi = [] then s.networks else s.wifi) :=
  rfl

theorem model_post_init_bt (s : Networks) :
    (s.model_post_init).bt = sortByRssiDesc s.bt := rfl

theorem sortByRssiDesc_eq_nil {l : List Network} (h : sortByRssiDesc l = []) :
    l = [] := by
  have hl := List.length_insertionSort (fun a b => b.rssi ≤ a.rssi) l
  rw [sortByRssiDesc] at h
  rw [h] at hl
  exact List.length_eq_zero.mp hl.symm

theorem pyMin_le (xs : List Int) : ∀ x : Int,
    pyMin x xs ≤ x ∧ ∀ y ∈ xs, pyMin x xs ≤ y := by
  induction xs with
  | nil => intro x; exact ⟨le_refl x, by simp⟩
  | cons a as ih =>
    intro x
    have h := ih (min x a)
    have hstep : pyMin x (a :: as) = pyMin (min x a) as := rfl
    rw [hstep]
    refine ⟨le_trans h.1 (min_le_left x a), ?_⟩
    intro y hy
    rcases List.mem_cons.mp hy with h1 | h1
    · rw [h1]; exact le_trans h.1 (min_le_right x a)
    · exact h.2 y h1

theorem le_pyMax (xs : List Int) : ∀ x : Int,
    x ≤ pyMax x xs ∧ ∀ y ∈ xs, y ≤ pyMax x xs := by
  induction xs with
  | nil => intro x; exact ⟨le_refl x, by simp⟩
  | cons a as ih =>
    intro x
    have h := ih (max x a)
    have hstep : pyMax x (a :: as) = pyMax (max x a) as := rfl
    rw [hstep]
    refine ⟨le_trans (le_max_left x a) h.1, ?_⟩
    intro y hy
    rcases List.mem_cons.mp hy with h1 | h1
    · rw [h1]; exact le_trans (le_max_right x a) h.1
    · exact h.2 y h1

theorem getNetsFrom_no_args (x : Network) (xs : List Network) :
    getNetsFrom (x :: xs) none none none = x :: xs := by
  have hmin := pyMin_le (xs.map (fun n => n.rssi)) x.rssi
  have hmax := le_pyMax (xs.map (fun n => n.rssi)) x.rssi
  have hfilter : ((x :: xs).filter (fun n =>
      decide (pyOrInt none (pyMin x.rssi (xs.map (fun n => n.rssi))) ≤ n.rssi
        ∧ n.rssi ≤ pyOrInt none (pyMax x.rssi (xs.map (fun n => n.rssi)))))) = x :: xs := by
    apply List.filter_eq_self.mpr
    intro n hn
    simp only [pyOrInt, decide_eq_true_eq]
    rcases List.mem_cons.mp hn with h1 | h1
    · subst h1; exact ⟨hmin.1, hmax.1⟩
    · exact ⟨hmin.2 _ (List.mem_map_of_mem _ h1), hmax.2 _ (List.mem_map_of_mem _ h1)⟩
  simp only [getNetsFrom]
  rw [hfilter]
  simp only [pyOrInt, pySliceTo]
  rw [if_neg (by omega : ¬ ((x :: xs).length : Int) < 0)]
  simp

/-! ### Claims C4, C5, C7, C9, C10 -/

/-- C4: when `filename` is not supplied (so it is the empty default) and
`meta.filepath` is a nonempty string, the constructed container derives
`filename` as the final slash-separated segment of the filepath; in
particular the filepath `/a/b/c.json` yields `c.json`, whatever the record
list is. -/
theorem filename_from_filepath :
    (∀ (s : Networks) (m : Meta) (fp : String), s.filename = "" →
        s.meta = some m → m.filepath = some fp → fp ≠ "" →
        (s.model_post_init).filename = pyLastSegment '/' fp)
    ∧ (∀ nets : List Network,
        (Networks.model_post_init
          { meta := some { filepath := some "/a/b/c.json" }, networks := nets }).filename
          = "c.json") := by
  constructor
  · intro s m fp hfn hm hfp hne
    have h1 : (s.model_post_init).filename =
        (if s.filename = "" then
          match s.meta with
          | none => s.filename
          | some m =>
            match m.filepath with
            | none => s.filename
            | some fp => if fp = "" then s.filename else pyLastSegment '/' fp
        else s.filename) := rfl
    rw [h1, if_pos hfn, hm]
    show (match m.filepath with
      | none => s.filename
      | some fp => if fp = "" then s.filename else pyLastSegment '/' fp)
      = pyLastSegment '/' fp
    rw [hfp]
    show (if fp = "" then s.filename else pyLastSegment '/' fp) = pyLastSegment '/' fp
    rw [if_neg hne]
  · intro nets
    rfl

/-- Closed instance of `filename_from_filepath` at the concrete filepath of
the spec example, with every hypothesis discharged by evaluation. -/
theorem filename_from_filepath_witness :
    (Networks.model_post_init
        { meta := some { filepath := some "/a/b/c.json" }, networks := [] }).filename
      = pyLastSegment '/' "/a/b/c.json" :=
  filename_from_filepath.1
    { meta := some { filepath := some "/a/b/c.json" }, networks := [] }
    { filepath := some "/a/b/c.json" } "/a/b/c.json" rfl rfl rfl (by decide)

/-- C5: on a constructed container, if the list selected by the device type is
empty then `get_networks` returns the empty list, for every choice of the
optional bounds and whatever the other lists hold. -/
theorem get_networks_empty_selected :
    ∀ (s : Networks) (minR maxR maxN : Option Int),
      ((s.model_post_init).wifi = [] →
        (s.model_post_init).get_networks minR maxR maxN "wifi" = Except.ok [])
      ∧ ((s.model_post_init).bt = [] →
        (s.model_post_init).get_networks minR maxR maxN "bt" = Except.ok []) := by
  intro s minR maxR maxN
  constructor
  · intro h
    have hw : (if s.networks ≠ [] ∧ s.wifi = [] then s.networks else s.wifi) = [] :=
      sortByRssiDesc_eq_nil (by rw [← model_post_init_wifi]; exact h)
    have hnets : s.networks = [] := by
      by_cases hc : s.networks ≠ [] ∧ s.wifi = []
      · rw [if_pos hc] at hw; exact hw
      · rw [if_neg hc] at hw
        push_neg at hc
        by_contra hne
        exact hc hne hw
    unfold Networks.get_networks
    rw [if_pos rfl, h]
    rw [if_pos rfl, model_post_init_networks, hnets]
    rfl
  · intro h
    unfold Networks.get_networks
    rw [if_neg (by decide), if_pos rfl, h]
    rfl

/-- Closed instance of `get_networks_empty_selected`: a container built from
an empty record list answers the unbounded wifi query with the empty list. -/
theorem get_networks_empty_selected_witness :
    (Networks.model_post_init { networks := [] }).get_networks none none none "wifi"
      = Except.ok [] :=
  (get_networks_empty_selected { networks := [] } none none none).1 rfl

/-- C7: with no bounds and no count supplied, `get_networks` returns the whole
selected list unchanged and in order, because the bounds default to the
observed minimum and maximum rssi and the count to the list length. -/
theorem get_networks_no_args_returns_all :
    ∀ s : Networks,
      ((if s.wifi = [] then s.networks else s.wifi) ≠ [] →
        s.get_networks none none none "wifi"
          = Except.ok (if s.wifi = [] then s.networks else s.wifi))
      ∧ (s.bt ≠ [] → s.get_networks none none none "bt" = Except.ok s.bt) := by
  intro s
  constructor
  · intro h
    unfold Networks.get_networks
    rw [if_pos rfl]
    cases hsel : (if s.wifi = [] then s.networks else s.wifi) with
    | nil => exact absurd hsel h
    | cons x xs => rw [getNetsFrom_no_args]
  · intro h
    unfold Networks.get_networks
    rw [if_neg (by decide), if_pos rfl]
    cases hsel : s.bt with
    | nil => exact absurd hsel h
    | cons x xs => rw [getNetsFrom_no_args]

/-- A small concrete record used to instantiate the query theorems. -/
def exampleNet (b : String) (r : Int) : Network :=
  { bssid := b, channel := 1, rssi := r }

/-- Closed instance of `get_networks_no_args_returns_all`: the spec example of
a three-record wifi list with rssi values -50, -70, -90 is returned whole and
in order. -/
theorem get_networks_no_args_returns_all_witness :
    ({ networks := [exampleNet "a" (-50), exampleNet "b" (-70), exampleNet "c" (-90)] }
        : Networks).get_networks none none none "wifi"
      = Except.ok [exampleNet "a" (-50), exampleNet "b" (-70), exampleNet "c" (-90)] :=
  (get_networks_no_args_returns_all
    { networks := [exampleNet "a" (-50), exampleNet "b" (-70), exampleNet "c" (-90)] }).1
    (by decide)

/-- C9: the derived channel helper clamps the stored channel into the band
[0, 11] — identity inside the band, 0 below, 11 above — and the method call
leaves the record unchanged. -/
theorem channel_as_2pt4_clamps :
    ∀ n : Network,
      (0 ≤ n.channel ∧ n.channel ≤ 11 → n.channel_as_2pt4 = n.channel)
      ∧ (n.channel < 0 → n.channel_as_2pt4 = 0)
      ∧ (11 < n.channel → n.channel_as_2pt4 = 11)
      ∧ n.channel_as_2pt4_call = (n.channel_as_2pt4, n) := by
  intro n
  unfold Network.channel_as_2pt4 Network.channel_as_2pt4_call
  refine ⟨?_, ?_, ?_, rfl⟩ <;> omega

/-- Closed instance of `channel_as_2pt4_clamps` at a record with channel 5. -/
theorem channel_as_2pt4_clamps_witness :
    ({ bssid := "aa", channel := 5, rssi := -50 } : Network).channel_as_2pt4 = 5 :=
  (channel_as_2pt4_clamps { bssid := "aa", channel := 5, rssi := -50 }).1 (by decide)

/-- C10: the optional arguments are tested by truthiness, so an explicit 0 for
the minimum, the maximum or the count behaves exactly as leaving the argument
out. -/
theorem get_networks_zero_means_default :
    ∀ (s : Networks) (a b c : Option Int) (dt : String),
      s.get_networks a b (some 0) dt = s.get_networks a b none dt
      ∧ s.get_networks (some 0) b c dt = s.get_networks none b c dt
      ∧ s.get_networks a (some 0) c dt = s.get_networks a none c dt := by
  intro s a b c dt
  exact ⟨rfl, rfl, rfl⟩

/-! ## The conversion script `extras/wigle_to_skylift.py` -/

/-- The `sl_meta` block built by `main`. -/
structure SLMeta where
  comment : String
  filepath : String
  lat : ℚ
  lon : ℚ
  radius : Int
  run : Int
  since : Int
  type : String
  deriving Repr, DecidableEq

/-- One `sl_network` record built by the conversion loop; every distance has
been computed, so the distance fields are plain numbers here. -/
structure SLNetwork where
  bssid : String
  channel : Int
  distance_x : ℚ
  distance_xy : ℚ
  distance_y : ℚ
  lat : ℚ
  lon : ℚ
  qos : Option Int
  rssi : Int
  ssid : String
  deriving Repr, DecidableEq

/-- The content of one output file: `{"meta": ..., "networks": ...}`. -/
structure SLData where
  meta : SLMeta
  networks : List SLNetwork
  deriving Repr, DecidableEq

/-- The sort `sl_networks.sort(key=lambda n: abs(n["distance_xy"]))`: a stable
ascending sort by absolute distance, modelled with insertion sort, which is
stable and therefore produces the same list as the stable Python sort. -/
def sortNetworks (l : List SLNetwork) : List SLNetwork :=
  l.insertionSort (fun a b => |a.distance_xy| ≤ |b.distance_xy|)

/-- One iteration of the output loop takes
`nets_to_do = min(nets_per_of, n_nets - c)` records and recurses on the rest.
The fuel argument bounds the number of iterations: the source loop terminates
only for a positive chunk size, and then at most `l.length` iterations run. -/
def chunkGo {α : Type} (K : Nat) : Nat → List α → List (List α)
  | _, [] => []
  | 0, _ :: _ => []
  | fuel + 1, x :: xs => ((x :: xs).take K) :: chunkGo K fuel ((x :: xs).drop K)

/-- The list of chunks written by the output loop for chunk size `K`. For
`K = 0` the source loop never terminates; every theorem below assumes
`0 < K`. -/
def chunkList {α : Type} (K : Nat) (l : List α) : List (List α) :=
  chunkGo K l.length l

/-- The output files written by `main`: the i-th chunk is paired with the
shared meta block and the filename `skylift_<i+1>.json`. -/
def writeOutput (meta : SLMeta) (K : Nat) (nets : List SLNetwork) :
    List (String × SLData) :=
  (chunkList K nets).enum.map
    (fun p => ("skylift_" ++ toString (p.1 + 1) ++ ".json", (⟨meta, p.2⟩ : SLData)))

theorem chunkGo_nil {α : Type} (K fuel : Nat) : chunkGo K fuel ([] : List α) = [] := by
  cases fuel <;> rfl

theorem chunkGo_flatten {α : Type} (K : Nat) (hK : 0 < K) :
    ∀ (fuel : Nat) (l : List α), l.length ≤ fuel → (chunkGo K fuel l).flatten = l := by
  intro fuel
  induction fuel with
  | zero =>
    intro l hl
    have h0 : l = [] := List.length_eq_zero.mp (Nat.le_zero.mp hl)
    subst h0; rfl
  | succ f ih =>
    intro l hl
    cases l with
    | nil => rfl
    | cons x xs =>
      have hlen : ((x :: xs).drop K).length ≤ f := by
        rw [List.length_drop]
        simp only [List.length_cons] at hl ⊢
        omega
      show (((x :: xs).take K) :: chunkGo K f ((x :: xs).drop K)).flatten = x :: xs
      rw [List.flatten_cons, ih _ hlen, List.take_append_drop]

theorem ceil_div_step (K n : Nat) (hK : 0 < K) (hn : 1 ≤ n) :
    (n - K + K - 1) / K + 1 = (n + K - 1) / K := by
  by_cases hcase : n ≤ K
  · have e0 : n - K = 0 := by omega
    have e1 : n + K - 1 = (n - 1) + K := by omega
    rw [e0, e1, Nat.add_div_right _ hK]
    have e3 : (0 + K - 1) / K = 0 := Nat.div_eq_of_lt (by omega)
    have e4 : (n - 1) / K = 0 := Nat.div_eq_of_lt (by omega)
    rw [e3, e4]
  · have e1 : n - K + K - 1 = (n - 1 - K) + K := by omega
    have e2 : n + K - 1 = (n - 1) + K := by omega
    rw [e1, e2, Nat.add_div_right _ hK, Nat.add_div_right _ hK]
    have e3 : n - 1 = (n - 1 - K) + K := by omega
    conv_rhs => rw [e3, Nat.add_div_right _ hK]

theorem chunkGo_length {α : Type} (K : Nat) (hK : 0 < K) :
    ∀ (fuel : Nat) (l : List α), l.length ≤ fuel →
      (chunkGo K fuel l).length = (l.length + K - 1) / K := by
  intro fuel
  induction fuel with
  | zero =>
    intro l hl
    have h0 : l = [] := List.length_eq_zero.mp (Nat.le_zero.mp hl)
    subst h0
    show 0 = (0 + K - 1) / K
    exact (Nat.div_eq_of_lt (by omega)).symm
  | succ f ih =>
    intro l hl
    cases l with
    | nil =>
      show 0 = (0 + K - 1) / K
      exact (Nat.div_eq_of_lt (by omega)).symm
    | cons x xs =>
      have hlen : ((x :: xs).drop K).length ≤ f := by
        rw [List.length_drop]
        simp only [List.length_cons] at hl ⊢
        omega
      show (((x :: xs).take K) :: chunkGo K f ((x :: xs).drop K)).length
        = ((x :: xs).length + K - 1) / K
      rw [List.length_cons, ih _ hlen, List.length_drop]
      exact ceil_div_step K (x :: xs).length hK (by simp)

theorem chunkGo_dropLast {α : Type} (K : Nat) (hK : 0 < K) :
    ∀ (fuel : Nat) (l : List α), l.length ≤ fuel →
      ∀ c ∈ (chunkGo K fuel l).dropLast, c.length = K := by
  intro fuel
  induction fuel with
  | zero =>
    intro l hl c hc
    have h0 : l = [] := List.length_eq_zero.mp (Nat.le_zero.mp hl)
    subst h0
    simp [chunkGo_nil] at hc
  | succ f ih =>
    intro l hl c hc
    cases l with
    | nil => simp [chunkGo_nil] at hc
    | cons x xs =>
      have hlen : ((x :: xs).drop K).length ≤ f := by
        rw [List.length_drop]
        simp only [List.length_cons] at hl ⊢
        omega
      have hstep : chunkGo K (f + 1) (x :: xs)
          = ((x :: xs).take K) :: chunkGo K f ((x :: xs).drop K) := rfl
      rw [hstep] at hc
      cases hrest : chunkGo K f ((x :: xs).drop K) with
      | nil => rw [hrest] at hc; simp at hc
      | cons r rs =>
        rw [hrest, List.dropLast_cons₂] at hc
        rcases List.mem_cons.mp hc with h1 | h1
        · have hdrop : (x :: xs).drop K ≠ [] := by
            intro hd
            rw [hd, chunkGo_nil] at hrest
            exact List.noConfusion hrest
          have hKn : K < (x :: xs).length := by
            by_contra hge
            push_neg at hge
            exact hdrop (List.drop_eq_nil_of_le hge)
          rw [h1, List.length_take]
          omega
        · exact ih _ hlen c (by rw [hrest]; exact h1)

theorem chunkGo_getLast {α : Type} (K : Nat) (hK : 0 < K) :
    ∀ (fuel : Nat) (l : List α), l ≠ [] → l.length ≤ fuel →
      ∃ c, (chunkGo K fuel l).getLast? = some c
        ∧ c.length = l.length - K * ((chunkGo K fuel l).length - 1)
        ∧ 0 < c.length := by
  intro fuel
  induction fuel with
  | zero =>
    intro l hne hl
    exact absurd (List.length_eq_zero.mp (Nat.le_zero.mp hl)) hne
  | succ f ih =>
    intro l hne hl
    cases l with
    | nil => exact absurd rfl hne
    | cons x xs =>
      have hstep : chunkGo K (f + 1) (x :: xs)
          = ((x :: xs).take K) :: chunkGo K f ((x :: xs).drop K) := rfl
      have hlen : ((x :: xs).drop K).length ≤ f := by
        rw [List.length_drop]
        simp only [List.length_cons] at hl ⊢
        omega
      by_cases hdrop : (x :: xs).drop K = []
      · have hrest : chunkGo K f ((x :: xs).drop K) = [] := by
          rw [hdrop, chunkGo_nil]
        have hnK : (x :: xs).length ≤ K := by
          by_contra hgt
          push_neg at hgt
          have hdl : ((x :: xs).drop K).length = (x :: xs).length - K :=
            List.length_drop K (x :: xs)
          rw [hdrop] at hdl
          simp only [List.length_nil] at hdl
          omega
        refine ⟨(x :: xs).take K, ?_, ?_, ?_⟩
        · rw [hstep, hrest]; rfl
        · rw [hstep, hrest]
          simp only [List.length_singleton, List.length_take]
          omega
        · rw [List.length_take]
          simp only [List.length_cons]
          omega
      · have hrest_ne : chunkGo K f ((x :: xs).drop K) ≠ [] := by
          cases hd : (x :: xs).drop K with
          | nil => exact absurd hd hdrop
          | cons y ys =>
            cases f with
            | zero => rw [hd] at hlen; simp at hlen
            | succ f2 => exact fun hcontra => List.noConfusion hcontra
        obtain ⟨c, hc1, hc2, hc3⟩ := ih _ hdrop hlen
        have hm : 1 ≤ (chunkGo K f ((x :: xs).drop K)).length :=
          List.length_pos.mpr hrest_ne
        refine ⟨c, ?_, ?_, hc3⟩
        · cases hr : chunkGo K f ((x :: xs).drop K) with
          | nil => exact absurd hr hrest_ne
          | cons r rs =>
            rw [hstep, hr, List.getLast?_cons_cons]
            rw [hr] at hc1
            exact hc1
        · rw [hstep]
          rw [hc2, List.length_drop]
          have hL : (List.take K (x :: xs) :: chunkGo K f ((x :: xs).drop K)).length
              = (chunkGo K f ((x :: xs).drop K)).length + 1 :=
            List.length_cons _ _
          rw [hL]
          have e1 : K * ((chunkGo K f ((x :: xs).drop K)).length + 1 - 1)
              = K * ((chunkGo K f ((x :: xs).drop K)).length - 1) + K := by
            have e0 : (chunkGo K f ((x :: xs).drop K)).length + 1 - 1
                = ((chunkGo K f ((x :: xs).drop K)).length - 1) + 1 := by omega
            rw [e0, Nat.mul_succ]
          rw [e1]
          omega

theorem writeOutput_networks (meta : SLMeta) (K : Nat) (l : List SLNetwork) :
    (writeOutput meta K l).map (fun f => f.2.networks) = chunkList K l := by
  unfold writeOutput
  rw [List.map_map]
  have h : ((fun (f : String × SLData) => f.2.networks) ∘
      (fun (p : Nat × List SLNetwork) =>
        ("skylift_" ++ toString (p.1 + 1) ++ ".json", (⟨meta, p.2⟩ : SLData))))
      = Prod.snd := rfl
  rw [h, List.enum_map_snd]

/-! ### Claims C2 and C3 -/

/-- C2: concatenating the `networks` arrays of the output files in file-index
order reproduces exactly the sorted record list handed to the output loop —
nothing is lost, duplicated, or reordered by the chunking — and that list is
a permutation of the converted records, sorted ascending by the absolute
value of `distance_xy`. -/
theorem chunks_concat_eq_sorted (meta : SLMeta) (K : Nat) (hK : 0 < K)
    (l : List SLNetwork) :
    ((writeOutput meta K (sortNetworks l)).map (fun f => f.2.networks)).flatten
      = sortNetworks l
    ∧ (sortNetworks l).Perm l
    ∧ (sortNetworks l).Sorted (fun a b => |a.distance_xy| ≤ |b.distance_xy|) := by
  refine ⟨?_, ?_, ?_⟩
  · rw [writeOutput_networks]
    exact chunkGo_flatten K hK (sortNetworks l).length (sortNetworks l) (le_refl _)
  · exact List.perm_insertionSort _ l
  · haveI : IsTotal SLNetwork (fun a b => |a.distance_xy| ≤ |b.distance_xy|) :=
      ⟨fun a b => le_total _ _⟩
    haveI : IsTrans SLNetwork (fun a b => |a.distance_xy| ≤ |b.distance_xy|) :=
      ⟨fun a b c h1 h2 => le_trans h1 h2⟩
    exact List.sorted_insertionSort _ l

/-- C3: for `N` records and a positive chunk size `K` the loop emits exactly
`ceil(N/K)` files, every file but the last holds exactly `K` records, the last
file holds `N - K*(files-1)` records, which is positive whenever `N > 0`, and
no file at all is emitted for `N = 0` — a zero-length trailing chunk never
appears. -/
theorem chunking_invariant (K : Nat) (hK : 0 < K) (meta : SLMeta)
    (l : List SLNetwork) :
    (writeOutput meta K l).length = (l.length + K - 1) / K
    ∧ (∀ c ∈ ((writeOutput meta K l).map (fun f => f.2.networks)).dropLast,
        c.length = K)
    ∧ (l ≠ [] → ∃ c,
        ((writeOutput meta K l).map (fun f => f.2.networks)).getLast? = some c
        ∧ c.length = l.length - K * ((writeOutput meta K l).length - 1)
        ∧ 0 < c.length)
    ∧ (l = [] → writeOutput meta K l = []) := by
  have hlen : (writeOutput meta K l).length = (chunkList K l).length := by
    unfold writeOutput
    rw [List.length_map, List.enum_length]
  refine ⟨?_, ?_, ?_, ?_⟩
  · rw [hlen]
    exact chunkGo_length K hK l.length l (le_refl _)
  · rw [writeOutput_networks]
    exact chunkGo_dropLast K hK l.length l (le_refl _)
  · intro hne
    obtain ⟨c, h1, h2, h3⟩ := chunkGo_getLast K hK l.length l hne (le_refl _)
    refine ⟨c, ?_, ?_, h3⟩
    · rw [writeOutput_networks]; exact h1
    · rw [hlen]; exact h2
  · intro h0; subst h0; rfl

/-- A concrete meta block used to instantiate the chunking theorems. -/
def slMeta0 : SLMeta :=
  { comment := "", filepath := "", lat := 0, lon := 0, radius := 1, run := 1,
    since := 20240101, type := "wigle" }

/-- A concrete converted record used to instantiate the chunking theorems. -/
def slNet (b : String) (dxy : ℚ) (r : Int) : SLNetwork :=
  { bssid := b, channel := 6, distance_x := 0, distance_xy := dxy,
    distance_y := 0, lat := 0, lon := 0, qos := some 0, rssi := r, ssid := "" }

/-- A concrete record list used to instantiate the chunking theorems. -/
def exNets : List SLNetwork := [slNet "a" 5 (-50), slNet "b" 2 (-50), slNet "c" 9 (-90)]

/-- Closed instance of `chunks_concat_eq_sorted` at chunk size 2 and a
three-record list. -/
theorem chunks_concat_eq_sorted_witness :
    ((writeOutput slMeta0 2 (sortNetworks exNets)).map (fun f => f.2.networks)).flatten
      = sortNetworks exNets :=
  (chunks_concat_eq_sorted slMeta0 2 (by decide) exNets).1

/-- Closed instance of `chunking_invariant` at chunk size 2 and a three-record
list: two files are emitted. -/
theorem chunking_invariant_witness :
    (writeOutput slMeta0 2 exNets).length = (exNets.length + 2 - 1) / 2 :=
  (chunking_invariant 2 (by decide) slMeta0 exNets).1

/-! ### Claim C6: the NETWORKS_PER_OUTFILE argument -/

/-- The whitespace characters stripped by the Python `int()` conversion. -/
def isPySpace (c : Char) : Bool :=
  decide (c = ' ' ∨ c = '\t' ∨ c = '\n' ∨ c = '\r' ∨ c = '\x0b' ∨ c = '\x0c')

/-- Strip leading and trailing whitespace from a character list. -/
def pyStrip (cs : List Char) : List Char :=
  ((cs.dropWhile isPySpace).reverse.dropWhile isPySpace).reverse

/-- The numeric value of a list of decimal digit characters. -/
def digitsToNat (ds : List Char) : Nat :=
  ds.foldl (fun acc c => 10 * acc + (c.toNat - 48)) 0

/-- Model of the Python `int(str)` conversion as the script can trigger it:
optional surrounding whitespace, an optional sign, then decimal digits;
anything else raises ValueError (the underscore digit separators Python also
accepts are not modelled). -/
def pyParseInt (s : String) : Option Int :=
  match pyStrip s.data with
  | [] => none
  | c :: cs =>
    let sign : Int := if c = '-' then -1 else 1
    let ds : List Char := if c = '-' ∨ c = '+' then cs else c :: cs
    if ds.isEmpty then none
    else if ds.all Char.isDigit then some (sign * Int.ofNat (digitsToNat ds))
    else none

/-- Embedding of lines 55-59 of the script: `nets_per_of = 20`, then
`try: nets_per_of = int(sys.argv[5]) except IndexError: pass`. A missing
fifth argument raises IndexError, which is caught and keeps the default 20;
a present but unparsable argument makes `int` raise ValueError, which no
handler catches, so the run fails. -/
def parseNetsPerOf (argv5 : Option String) : Except String Int :=
  match argv5 with
  | none => Except.ok 20
  | some s =>
    match pyParseInt s with
    | some n => Except.ok n
    | none => Except.error "ValueError"

/-- C6 counterexample: a supplied but unparsable fifth argument does not fall
back to 20 — the conversion raises an uncaught ValueError instead. -/
theorem netsPerFile_unparsable_raises :
    parseNetsPerOf (some "twenty") = Except.error "ValueError"
    ∧ parseNetsPerOf (some "twenty") ≠ Except.ok 20 := by
  refine ⟨rfl, ?_⟩
  intro h
  exact Except.noConfusion h

/-- C6 amended: the chunk size defaults to 20 only when the fifth positional
argument is omitted; a supplied parsable value is used as given, and a
supplied unparsable value raises an uncaught ValueError, so the program fails
on that argument. -/
theorem netsPerFile_default :
    parseNetsPerOf none = Except.ok 20
    ∧ (∀ (s : String) (n : Int), pyParseInt s = some n →
        parseNetsPerOf (some s) = Except.ok n)
    ∧ (∀ s : String, pyParseInt s = none →
        parseNetsPerOf (some s) = Except.error "ValueError") := by
  refine ⟨rfl, ?_, ?_⟩
  · intro s n h
    show (match pyParseInt s with
      | some n => Except.ok n
      | none => Except.error "ValueError") = Except.ok n
    rw [h]
  · intro s h
    show (match pyParseInt s with
      | some n => Except.ok n
      | none => Except.error "ValueError") = Except.error "ValueError"
    rw [h]

/-- Closed instance of `netsPerFile_default`: the argument 25 parses and is
used, the argument abc does not parse and raises. -/
theorem netsPerFile_default_witness :
    parseNetsPerOf (some "25") = Except.ok 25
    ∧ parseNetsPerOf (some "abc") = Except.error "ValueError" :=
  ⟨netsPerFile_default.2.1 "25" 25 (by decide),
   netsPerFile_default.2.2 "abc" (by decide)⟩

end Skylift
